import Mathlib

/-!
Verification development for the branch-and-price Partition Coloring Problem
solver.  The Python sources are shallowly embedded: vertices are represented by
their integer ids (the source compares vertices with an `__eq__` that only
looks at `id`), Python `dict`s become insertion-ordered association lists,
Python `float` arithmetic is modelled over `ℚ` (the operations involved are
assignments and sums, which are field-agnostic), and operations that can raise
(`KeyError`, missing attribute, `IndexError`, `ValueError` from `max` on an
empty dict) return `Option`.
-/

namespace BPC

/-- Vertex identifier.  Vertices compare by id in the source
(`Vertex.__eq__`), so a vertex is represented by its id. -/
abbrev VId := Nat

/-- Association-list lookup, returning the first binding of the key.  Models
reading `d[k]` from a Python dict (whose keys are unique). -/
def alookup {κ α : Type} [DecidableEq κ] : List (κ × α) → κ → Option α
  | [], _ => none
  | (k, a) :: l, q => if k = q then some a else alookup l q

/-- Association-list write, modelling `d[k] = a` on a Python dict: an existing
binding is overwritten in place, a new key is appended at the end. -/
def aset {κ α : Type} [DecidableEq κ] : List (κ × α) → κ → α → List (κ × α)
  | [], k, a => [(k, a)]
  | (k0, b) :: l, k, a => if k0 = k then (k, a) :: l else (k0, b) :: aset l k a

/-- Association-list delete, modelling `d.pop(k)` (keys are unique in a dict,
so filtering out the key removes exactly the one binding). -/
def aerase {κ α : Type} [DecidableEq κ] (l : List (κ × α)) (k : κ) : List (κ × α) :=
  l.filter (fun p => p.1 ≠ k)

/-- Key list of an association list (dict insertion order). -/
def akeys {κ α : Type} (l : List (κ × α)) : List κ :=
  l.map (fun p => p.1)

/-- Undirected edge, embedded from `model/Edge.py`: a `source` and a `target`
vertex (held by reference; here by id). -/
structure Edge where
  source : VId
  target : VId
deriving DecidableEq, Repr

/-- Auxiliary graph state, embedded from `model/a_graph.py`
(`AuxiliaryGraph`).  `verticesMap` is the key list of `self.vertices_map`
(id → vertex, insertion ordered), `weightV` is `self.weight_v`, `auxEdges` is
`self.auxiliary_edges`, `merged` is `self.merged_vertices_map` keyed by the id
of the synthetic vertex.  `partitionOf` records `v.associated_partition.id`
for the vertices that carry a partition; a synthetic vertex created by
`same_color` is built by a bare call of the vertex constructor and has no
associated partition, so it has no binding here. -/
structure AuxGraph where
  verticesMap : List VId
  weightV : List (VId × ℚ)
  auxEdges : List Edge
  merged : List (VId × List VId)
  partitionOf : List (VId × Nat)
deriving DecidableEq, Repr

/-- Removal of one plain vertex id from the three per-vertex stores: the body
shared by both branches of `AuxiliaryGraph.remove_vertex` (pop from
`vertices_map`, pop from `weight_v`, and keep only edges not incident on the
vertex). -/
def removePlain (g : AuxGraph) (v : VId) : AuxGraph :=
  { g with
    verticesMap := g.verticesMap.filter (fun w => w ≠ v)
    weightV := aerase g.weightV v
    auxEdges := g.auxEdges.filter (fun e => e.source ≠ v && e.target ≠ v) }

/-- Embedding of `AuxiliaryGraph.remove_vertex`.  If the vertex is a key of
the merged-vertices map, the source removes each constituent (from the vertex
index, the weight map, and the edge list) and pops the merged entry — it does
not touch the synthetic vertex itself.  Otherwise the vertex itself is
removed. -/
def removeVertex (g : AuxGraph) (v : VId) : AuxGraph :=
  match alookup g.merged v with
  | some cs =>
      let g1 := cs.foldl removePlain g
      { g1 with merged := aerase g1.merged v }
  | none => removePlain g v

/-- First phase of `AuxiliaryGraph.same_color`: the fresh synthetic vertex id
`z` (the source calls the vertex constructor, which draws a fresh global id)
is put into `vertices_map`, and every edge endpoint equal to either
participant is redirected to `z`. -/
def sameColorPre (g : AuxGraph) (v u z : VId) : AuxGraph :=
  { g with
    verticesMap := if z ∈ g.verticesMap then g.verticesMap else g.verticesMap ++ [z]
    auxEdges := g.auxEdges.map (fun e =>
      { source := if e.source = v ∨ e.source = u then z else e.source
        target := if e.target = v ∨ e.target = u then z else e.target }) }

/-- Embedding of `AuxiliaryGraph.same_color`: after the redirection phase,
both participants are removed with `remove_vertex`, and finally `merged[z]`
is extended with the two participant vertices themselves. -/
def sameColor (g : AuxGraph) (v u z : VId) : AuxGraph :=
  let g3 := removeVertex (removeVertex (sameColorPre g v u z) v) u
  { g3 with merged :=
      match alookup g3.merged z with
      | none => g3.merged ++ [(z, [v, u])]
      | some l => aset g3.merged z (l ++ [v, u]) }

/-- Embedding of `AuxiliaryGraph.different_color`: add the edge between the
two vertices unless an edge with the same unordered endpoints is present. -/
def differentColor (g : AuxGraph) (v u : VId) : AuxGraph :=
  let present := g.auxEdges.any (fun e =>
    (e.source = v && e.target = u) || (e.source = u && e.target = v))
  if present then g else { g with auxEdges := g.auxEdges ++ [{ source := v, target := u }] }

/-- Embedding of `AuxiliaryGraph.update_weightf`.  First loop: for every
vertex in `vertices_map` (synthetics included), set its weight to the dual of
its associated partition — reading the partition of a synthetic vertex or
indexing the dual vector out of range raises, hence `Option`.  Second loop:
for every merged entry, set the synthetic key weight to the sum of the
constituents' current weights — a constituent with no binding in `weight_v`
raises `KeyError`, hence `Option`. -/
def updateWeightf (g : AuxGraph) (dual : List ℚ) : Option AuxGraph := do
  let g1 ← g.verticesMap.foldlM (fun (h : AuxGraph) v => do
      let p ← alookup g.partitionOf v
      let d ← dual.get? p
      pure { h with weightV := aset h.weightV v d }) g
  let g2 ← g1.merged.foldlM (fun (h : AuxGraph) pr => do
      let ws ← pr.2.mapM (fun c => alookup h.weightV c)
      pure { h with weightV := aset h.weightV pr.1 (ws.foldl (· + ·) 0) }) g1
  pure g2

/-- Concrete auxiliary graph: two original vertices 1 and 2 in clusters 0 and
1, no edges, no merges.  This is the state of a freshly built auxiliary graph
over two singleton clusters. -/
def exBase : AuxGraph :=
  { verticesMap := [1, 2]
    weightV := [(1, 0), (2, 0)]
    auxEdges := []
    merged := []
    partitionOf := [(1, 0), (2, 1)] }

/-- Concrete auxiliary graph: `exBase` after `same_color(1, 2)` allocating the
synthetic vertex 3. -/
def exMerged : AuxGraph := sameColor exBase 1 2 3

/-- Concrete auxiliary graph: three original vertices 1, 2, 4 in clusters 0,
1, 2, no edges. -/
def exBase3 : AuxGraph :=
  { verticesMap := [1, 2, 4]
    weightV := [(1, 0), (2, 0), (4, 0)]
    auxEdges := []
    merged := []
    partitionOf := [(1, 0), (2, 1), (4, 2)] }

/-- Concrete auxiliary graph: `exBase3` after `same_color(1, 2)` creating
synthetic 3. -/
def exNest1 : AuxGraph := sameColor exBase3 1 2 3

/-- Concrete auxiliary graph: `exNest1` after `same_color(3, 4)` creating
synthetic 5 — a second merge whose first participant is itself synthetic. -/
def exNest2 : AuxGraph := sameColor exNest1 3 4 5

theorem alookup_eq_none_of_notin {κ α : Type} [DecidableEq κ] {l : List (κ × α)} {v : κ}
    (h : v ∉ akeys l) : alookup l v = none := by
  induction l with
  | nil => rfl
  | cons p l ih =>
      simp only [akeys, List.map_cons, List.mem_cons, not_or] at h
      simp only [alookup]
      rw [if_neg (fun hk => h.1 hk.symm)]
      exact ih (by simpa [akeys] using h.2)

theorem notin_akeys_filter {κ α : Type} {l : List (κ × α)} {v : κ}
    (p : κ × α → Bool) (h : v ∉ akeys l) : v ∉ akeys (l.filter p) := by
  intro hmem
  apply h
  simp only [akeys, List.mem_map] at hmem ⊢
  obtain ⟨q, hq, hqv⟩ := hmem
  exact ⟨q, (List.mem_filter.mp hq).1, hqv⟩

theorem alookup_append_notin {κ α : Type} [DecidableEq κ] {l : List (κ × α)} {v : κ}
    (m : List (κ × α)) (h : v ∉ akeys l) :
    alookup (l ++ m) v = alookup m v := by
  induction l with
  | nil => rfl
  | cons p l ih =>
      simp only [akeys, List.map_cons, List.mem_cons, not_or] at h
      simp only [List.cons_append, alookup]
      rw [if_neg (fun hk => h.1 hk.symm)]
      exact ih (by simpa [akeys] using h.2)

theorem merged_removePlain (g : AuxGraph) (v : VId) :
    (removePlain g v).merged = g.merged := rfl

theorem merged_foldl_removePlain (cs : List VId) (g : AuxGraph) :
    (cs.foldl removePlain g).merged = g.merged := by
  induction cs generalizing g with
  | nil => rfl
  | cons c cs ih => simp [List.foldl_cons, ih, merged_removePlain]

theorem notin_merged_removeVertex {g : AuxGraph} {z : VId}
    (v : VId) (h : z ∉ akeys g.merged) : z ∉ akeys (removeVertex g v).merged := by
  unfold removeVertex
  cases hm : alookup g.merged v with
  | none => simpa [merged_removePlain] using h
  | some cs =>
      simp only [merged_foldl_removePlain, aerase]
      exact notin_akeys_filter _ h

/-- Claim C3, counterexample.  Two successive merges on `exBase3`: first
`same_color(1, 2)` creates synthetic 3, then `same_color(3, 4)` creates
synthetic 5.  The second merge records the synthetic participant 3 itself as a
constituent of 5 — not its original constituents 1 and 2 — even though 3 was a
merged synthetic (it was a key of the merged-vertices map, and carries no
associated partition, i.e. it is not an original vertex). -/
theorem C3_counterexample :
    alookup exNest2.merged 5 = some [3, 4] ∧
    alookup exNest1.merged 3 = some [1, 2] ∧
    alookup exNest1.partitionOf 3 = none := by decide

/-- Claim C3, amended: `same_color(v, u)` records the two participant vertices
themselves, `merged[z] = [v, u]`, whenever the fresh synthetic id `z` is not
already a key of the merged map; a synthetic participant has its own merged
entry popped (by `remove_vertex`) but its constituents are not inlined, so
merges can nest. -/
theorem C3_merged_entry_is_participants (g : AuxGraph) (v u z : VId)
    (h : z ∉ akeys g.merged) :
    alookup (sameColor g v u z).merged z = some [v, u] := by
  have h1 : z ∉ akeys (sameColorPre g v u z).merged := h
  have h2 : z ∉ akeys (removeVertex (sameColorPre g v u z) v).merged :=
    notin_merged_removeVertex v h1
  have h3 : z ∉ akeys (removeVertex (removeVertex (sameColorPre g v u z) v) u).merged :=
    notin_merged_removeVertex u h2
  unfold sameColor
  simp only [alookup_eq_none_of_notin h3]
  rw [alookup_append_notin [(z, [v, u])] h3]
  simp [alookup]

/-- Claim C3, witness for the amended theorem: applying it to `exBase` with
participants 1 and 2 and fresh synthetic id 3. -/
theorem C3_witness :
    3 ∉ akeys exBase.merged ∧ alookup (sameColor exBase 1 2 3).merged 3 = some [1, 2] :=
  ⟨by decide, C3_merged_entry_is_participants exBase 1 2 3 (by decide)⟩

/-- Claim C4 (code bug).  On the merge-free graph `exBase` the weight update
behaves as specified: each original vertex gets the dual of its cluster.  But
on `exMerged` — `exBase` after `same_color(1, 2)` created synthetic 3 — the
update fails: the first loop reads the associated partition of the synthetic
vertex 3 (which has none), and the second loop would read the weights of
constituents 1 and 2, which `remove_vertex` already popped from `weight_v`
(`KeyError`).  The embedded operation returns `none` instead of the state the
claim describes. -/
theorem C4_update_weights_fails_after_merge :
    updateWeightf exBase [(1 : ℚ)/2, 1/3] =
      some { exBase with weightV := [(1, (1 : ℚ)/2), (2, (1 : ℚ)/3)] } ∧
    updateWeightf exMerged [(1 : ℚ)/2, 1/3] = none := by
  constructor
  · rfl
  · rfl

/-- Claim C5 (code bug).  Removing the merged synthetic vertex 3 from
`exMerged` pops the merged entry but leaves 3 itself in the vertex index: the
merged branch of `remove_vertex` removes only the constituents and never the
synthetic vertex, contradicting the claim (and the function's own doc). -/
theorem C5_remove_synthetic_leaves_synthetic :
    3 ∈ exMerged.verticesMap ∧
    alookup exMerged.merged 3 = some [1, 2] ∧
    (removeVertex exMerged 3).verticesMap = [3] ∧
    (removeVertex exMerged 3).merged = [] := by decide

/-- Claim C6, counterexample.  On the merged synthetic vertex 3 of `exMerged`,
`remove_vertex` twice is not the same as once: the first call pops only the
merged entry and the constituents, so the second call (now taking the plain
branch) removes 3 itself, changing the state again. -/
theorem C6_counterexample :
    removeVertex (removeVertex exMerged 3) 3 ≠ removeVertex exMerged 3 := by decide

/-- Claim C6, amended: `remove_vertex` is idempotent for every vertex that is
not a key of the merged-vertices map (in particular for every original
vertex); for a merged synthetic the second application additionally removes
the synthetic itself, so it is not a no-op. -/
theorem C6_remove_idempotent_nonmerged (g : AuxGraph) (v : VId)
    (h : alookup g.merged v = none) :
    removeVertex (removeVertex g v) v = removeVertex g v := by
  unfold removeVertex
  rw [h]
  rw [show (removePlain g v).merged = g.merged from rfl, h]
  cases g with
  | mk vm w es m p =>
      simp [removePlain, aerase, List.filter_filter, Bool.and_self]

/-- Claim C6, witness for the amended theorem: vertex 1 of `exBase` is not a
merged synthetic, and removing it twice equals removing it once. -/
theorem C6_witness :
    alookup exBase.merged 1 = none ∧
    removeVertex (removeVertex exBase 1) 1 = removeVertex exBase 1 :=
  ⟨by decide, C6_remove_idempotent_nonmerged exBase 1 (by decide)⟩

/-- Column over an independent set, embedded from
`cg/column_independent_set.py` (`ColumnIndependentSet`).  The associated
pricing problem is an object compared by identity in the source; it is
represented by an integer tag. -/
structure ColumnIndependentSet where
  columnid : Nat
  vertexList : List VId
  isArtificialColumn : Bool
  creator : String
  pricingProblem : Nat
  value : ℚ
deriving DecidableEq, Repr

/-- Embedding of `ColumnIndependentSet.__eq__`: two columns are equal when
their vertex lists, artificial flags, creators, and associated pricing
problems agree. -/
def columnBeq (c1 c2 : ColumnIndependentSet) : Bool :=
  c1.vertexList == c2.vertexList &&
  c1.isArtificialColumn == c2.isArtificialColumn &&
  c1.creator == c2.creator &&
  c1.pricingProblem == c2.pricingProblem

/-- Embedding of `ColumnIndependentSet.__hash__`: the hash of a column is the
hash of its column-id. -/
def columnHash (c : ColumnIndependentSet) : Nat :=
  c.columnid

/-- Concrete column with column-id 1 over the single vertex 1. -/
def colA : ColumnIndependentSet :=
  { columnid := 1, vertexList := [1], isArtificialColumn := false
    creator := "Exact Pricing Solver", pricingProblem := 0, value := 1 }

/-- Concrete column with column-id 2 over the same vertex list, flag, creator
and pricing problem as `colA`. -/
def colB : ColumnIndependentSet :=
  { columnid := 2, vertexList := [1], isArtificialColumn := false
    creator := "Exact Pricing Solver", pricingProblem := 0, value := 1 }

/-- Claim C8, counterexample.  The two distinct columns `colA` and `colB`
are built over the same vertex list but have different column-ids; the
source's equality nevertheless holds between them, so equality is not
determined by the column-id. -/
theorem C8_counterexample :
    columnBeq colA colB = true ∧ colA.columnid ≠ colB.columnid ∧ colA ≠ colB := by
  decide

/-- Claim C8, amended: column equality is by content — vertex list,
artificial flag, creator, and associated pricing problem — ignoring the
column-id (and the master value); the hash alone is derived from the
column-id. -/
theorem C8_eq_is_content_hash_is_id (c1 c2 : ColumnIndependentSet) :
    (columnBeq c1 c2 = true ↔
      (c1.vertexList = c2.vertexList ∧
       c1.isArtificialColumn = c2.isArtificialColumn ∧
       c1.creator = c2.creator ∧
       c1.pricingProblem = c2.pricingProblem)) ∧
    columnHash c1 = c1.columnid := by
  refine ⟨?_, rfl⟩
  simp [columnBeq, and_assoc]

/-- Embedding of the stable-set extraction of
`ExactPricingSolver.generate_columns`: the vertices whose binary variable
equals 1 in a solution-pool entry are looked up in the auxiliary graph's
`vertices_map` (a missing key would raise) and collected, in variable order,
into the list that becomes the column's vertex list — as-is, with no
expansion of merged synthetics. -/
def stableSetList (g : AuxGraph) : List VId → Option (List VId)
  | [] => some []
  | v :: vs =>
      if v ∈ g.verticesMap then
        match stableSetList g vs with
        | some l => some (v :: l)
        | none => none
      else none

/-- Embedding of the `ColumnIndependentSet` creation in `generate_columns`:
vertex list from the pool solution, value 1, not artificial, creator tag of
the exact pricing solver, associated with the given pricing problem. -/
def columnFromPoolSolution (g : AuxGraph) (cid pp : Nat) (ones : List VId) :
    Option ColumnIndependentSet := do
  let vl ← stableSetList g ones
  pure { columnid := cid, vertexList := vl, isArtificialColumn := false
         creator := "Exact Pricing Solver", pricingProblem := pp, value := 1 }

/-- Claim C2, counterexample.  On `exMerged` — whose vertex index holds only
the merged synthetic 3, standing for originals 1 and 2 — a pricing solution
assigning 1 to vertex 3 yields a column whose vertex list is `[3]`: the
synthetic itself, not its constituents.  No expansion happens at column
creation time. -/
theorem C2_counterexample :
    (columnFromPoolSolution exMerged 1 0 [3]).map
        (fun c => c.vertexList) = some [3] ∧
    alookup exMerged.merged 3 = some [1, 2] ∧
    alookup exMerged.partitionOf 3 = none := by decide

/-- Claim C2, amended: the column built from a pricing-pool solution carries
exactly the solution's value-1 vertices, unexpanded — a merged synthetic with
value 1 appears itself in the vertex list (its expansion into constituents
happens later, in the master's `add_column_to_rmp`, not at column creation). -/
theorem C2_column_keeps_pool_vertices (g : AuxGraph) (cid pp : Nat)
    (ones : List VId) (h : ∀ v ∈ ones, v ∈ g.verticesMap) :
    columnFromPoolSolution g cid pp ones =
      some { columnid := cid, vertexList := ones, isArtificialColumn := false
             creator := "Exact Pricing Solver", pricingProblem := pp, value := 1 } := by
  have hs : stableSetList g ones = some ones := by
    induction ones with
    | nil => rfl
    | cons a l ih =>
        have ha : a ∈ g.verticesMap := h a (List.mem_cons_self a l)
        have hl := ih (fun v hv => h v (List.mem_cons_of_mem a hv))
        simp [stableSetList, ha, hl]
  simp [columnFromPoolSolution, hs]

/-- Claim C2, witness for the amended theorem: a pool solution selecting the
two original vertices of `exBase` produces exactly that vertex list. -/
theorem C2_witness :
    (∀ v ∈ [1, 2], v ∈ exBase.verticesMap) ∧
    columnFromPoolSolution exBase 1 0 [1, 2] =
      some { columnid := 1, vertexList := [1, 2], isArtificialColumn := false
             creator := "Exact Pricing Solver", pricingProblem := 0, value := 1 } :=
  ⟨by decide, C2_column_keeps_pool_vertices exBase 1 0 [1, 2] (by decide)⟩

/-- Partition object as seen by `BranchCreator`: its id and its member vertex
list, embedded from `model/Partition.py`.  The source keys a dict by the
partition object itself (compared by identity); since each vertex references
the one partition object of its cluster, the pair of id and vertex list
stands for that object. -/
structure PartObj where
  pid : Nat
  vertexList : List VId
deriving DecidableEq, Repr

/-- Inner-loop body of `BranchCreator.check_branch_rule1` for one vertex of a
positive-value column: record the vertex under its associated partition
(initialising the per-partition list and the per-vertex accumulator when
absent) and add the column's value to the vertex's accumulator.  Reading the
associated partition of a partitionless vertex raises, hence `Option`.  The
state is the pair of the per-partition covered-vertex map and the per-vertex
value map, both in dict insertion order. -/
def rule1Step (pa : List (VId × PartObj)) (val : ℚ)
    (st : List (PartObj × List VId) × List (VId × ℚ)) (v : VId) :
    Option (List (PartObj × List VId) × List (VId × ℚ)) :=
  match alookup pa v with
  | none => none
  | some p =>
      let perP :=
        match alookup st.1 p with
        | none => aset (st.1 ++ [(p, [])]) p ([] ++ [v])
        | some cur => if v ∈ cur then st.1 else aset st.1 p (cur ++ [v])
      let vv :=
        match alookup st.2 v with
        | none => aset (st.2 ++ [(v, 0)]) v (0 + val)
        | some c => aset st.2 v (c + val)
      some (perP, vv)

/-- Fold of `rule1Step` over the vertex list of one column. -/
def rule1Fold (pa : List (VId × PartObj)) (val : ℚ) :
    List (PartObj × List VId) × List (VId × ℚ) → List VId →
    Option (List (PartObj × List VId) × List (VId × ℚ))
  | st, [] => some st
  | st, v :: vs =>
      match rule1Step pa val st v with
      | none => none
      | some st1 => rule1Fold pa val st1 vs

/-- Accumulation pass of `BranchCreator.check_branch_rule1`: scan the solution
items in order and, for each column with strictly positive value, fold
`rule1Step` over its vertex list. -/
def rule1Scan (pa : List (VId × PartObj)) :
    List (PartObj × List VId) × List (VId × ℚ) →
    List (ColumnIndependentSet × ℚ) →
    Option (List (PartObj × List VId) × List (VId × ℚ))
  | st, [] => some st
  | st, (c, val) :: rest =>
      if 0 < val then
        match rule1Fold pa val st c.vertexList with
        | none => none
        | some st1 => rule1Scan pa st1 rest
      else rule1Scan pa st rest

/-- Embedding of the `max(..., key=lambda x: len(x[1]))` call: the first item
whose covered-vertex list has maximal length (a later item replaces the
current one only when strictly longer); `none` on the empty dict, where the
source raises `ValueError`. -/
def maxByLen : List (PartObj × List VId) → Option (PartObj × List VId)
  | [] => none
  | x :: xs =>
      some (xs.foldl (fun b y => if b.2.length < y.2.length then y else b) x)

/-- Embedding of the ranking loop of `check_branch_rule1`: walk the per-vertex
value map in order; at the first vertex belonging to the chosen partition's
vertex list, set the checked vertex to it when its value beats the running
maximum (still 0 at that point) and return `true` immediately; if the walk
ends, return `false` with the checked vertex unchanged. -/
def rule1Loop : List (VId × ℚ) → List VId → Option VId → Bool × Option VId
  | [], _, checked => (false, checked)
  | (v, val) :: rest, vl, checked =>
      if v ∈ vl then (true, if 0 < val then some v else checked)
      else rule1Loop rest vl checked

/-- Embedding of `BranchCreator.check_branch_rule1`: accumulate the
per-partition covered vertices and per-vertex values over the solution, take
the partition with the most covered vertices, and if it has more than one
covered vertex run the ranking loop (with initial checked vertex `None`);
otherwise report that the rule does not fire. -/
def checkBranchRule1 (pa : List (VId × PartObj))
    (sol : List (ColumnIndependentSet × ℚ)) : Option (Bool × Option VId) :=
  match rule1Scan pa ([], []) sol with
  | none => none
  | some st =>
      match maxByLen st.1 with
      | none => none
      | some mp =>
          if 1 < mp.2.length then some (rule1Loop st.2 mp.1.vertexList none)
          else some (false, none)

/-- Concrete partition object with id 0 over vertices 1 and 2. -/
def part0 : PartObj := { pid := 0, vertexList := [1, 2] }

/-- Concrete partition environment: vertices 1 and 2 both belong to
`part0`. -/
def pa0 : List (VId × PartObj) := [(1, part0), (2, part0)]

/-- Concrete column with column-id 3 over the single vertex 2. -/
def colC : ColumnIndependentSet :=
  { columnid := 3, vertexList := [2], isArtificialColumn := false
    creator := "Exact Pricing Solver", pricingProblem := 0, value := 1 }

/-- Concrete fractional solution: column `colA` (over vertex 1) at value 3/10,
column `colC` (over vertex 2) at value 7/10. -/
def sol0 : List (ColumnIndependentSet × ℚ) := [(colA, 3/10), (colC, 7/10)]

/-- Claim C1, counterexample.  On `sol0` the rule fires on cluster 0, whose
covered set is both of its vertices; vertex 2 carries the strictly larger
summed primal value (7/10 against 3/10 for vertex 1), yet the code selects
vertex 1 — the first covered vertex encountered — because the ranking loop
returns at its first iteration, before comparing any later vertex. -/
theorem C1_counterexample :
    checkBranchRule1 pa0 sol0 = some (true, some 1) ∧
    rule1Scan pa0 ([], []) sol0 =
      some ([(part0, [1, 2])], [(1, 3/10), (2, 7/10)]) ∧
    (3 : ℚ)/10 < 7/10 := by
  have hscan : rule1Scan pa0 ([], []) sol0 =
      some ([(part0, [1, 2])], [(1, 3/10), (2, 7/10)]) := by
    norm_num [rule1Scan, rule1Fold, rule1Step, alookup, aset, pa0, sol0,
      colA, colC, part0]
  refine ⟨?_, hscan, by norm_num⟩
  rw [checkBranchRule1, hscan]
  norm_num [maxByLen, rule1Loop, part0]

theorem rule1Loop_none_spec (vv : List (VId × ℚ)) (vl : List VId) (v : VId)
    (h : rule1Loop vv vl none = (true, some v)) :
    ∃ val : ℚ, vv.find? (fun p => decide (p.1 ∈ vl)) = some (v, val) ∧ 0 < val := by
  induction vv with
  | nil => simp [rule1Loop] at h
  | cons p rest ih =>
      cases p with
      | mk w val =>
          by_cases hm : w ∈ vl
          · rw [rule1Loop, if_pos hm] at h
            have hsnd : (if (0 : ℚ) < val then some w else none) = some v :=
              congrArg Prod.snd h
            by_cases hv : (0 : ℚ) < val
            · rw [if_pos hv] at hsnd
              have hw : w = v := Option.some.inj hsnd
              subst hw
              exact ⟨val, by simp [List.find?_cons_of_pos, hm], hv⟩
            · rw [if_neg hv] at hsnd
              exact absurd hsnd (by simp)
          · rw [rule1Loop, if_neg hm] at h
            obtain ⟨val0, hf, hpos⟩ := ih h
            exact ⟨val0, by simp [List.find?_cons_of_neg, hm, hf], hpos⟩

/-- Claim C1, amended: when Rule A fires and selects a vertex, that vertex is
the first entry of the per-vertex value map — i.e. the first covered vertex in
order of first appearance over the positive-value columns — that belongs to
the vertex list of the chosen cluster q* (the first cluster with the largest
covered set), and its accumulated value is positive; it need not maximise the
summed primal value over the covered vertices of q*. -/
theorem C1_first_qualifying_vertex (pa : List (VId × PartObj))
    (sol : List (ColumnIndependentSet × ℚ)) (v : VId)
    (h : checkBranchRule1 pa sol = some (true, some v)) :
    ∃ st mp val, rule1Scan pa ([], []) sol = some st ∧ maxByLen st.1 = some mp ∧
      1 < mp.2.length ∧
      st.2.find? (fun p => decide (p.1 ∈ mp.1.vertexList)) = some (v, val) ∧
      0 < val := by
  rw [checkBranchRule1] at h
  split at h
  · exact absurd h (by simp)
  · rename_i st hs
    split at h
    · exact absurd h (by simp)
    · rename_i mp hmp
      split at h
      · rename_i hlen
        obtain ⟨val, hf, hpos⟩ := rule1Loop_none_spec _ _ _ (Option.some.inj h)
        exact ⟨st, mp, val, hs, hmp, hlen, hf, hpos⟩
      · rename_i hlen
        exact absurd (Option.some.inj h) (by simp)

/-- Claim C1, witness for the amended theorem, at the concrete solution
`sol0`: the selected vertex 1 is the first recorded covered vertex lying in
cluster 0's vertex list. -/
theorem C1_witness :
    checkBranchRule1 pa0 sol0 = some (true, some 1) ∧
    (∃ st mp val, rule1Scan pa0 ([], []) sol0 = some st ∧
      maxByLen st.1 = some mp ∧ 1 < mp.2.length ∧
      st.2.find? (fun p => decide (p.1 ∈ mp.1.vertexList)) = some (1, val) ∧
      0 < val) :=
  ⟨C1_counterexample.1, C1_first_qualifying_vertex pa0 sol0 1 C1_counterexample.1⟩

/-- Branch-and-price node, embedded from `bpc/bpc_node.py` restricted to the
fields the controller's incumbent logic reads: its id and its LP objective
value (the node's lower bound). -/
structure BPCNode where
  nodeid : Nat
  objectiveValue : ℚ
deriving DecidableEq, Repr

/-- Controller state, embedded from `bpc/branch_and_price.py` restricted to
the fields touched by `update_best_solution` and `prune_nodes`.  The source's
`best_objective` starts at `float('inf')`; the unattained infinity is
represented by `none`.  The heap `node_queue` is modelled as a list; the
pop-all/keep/re-heapify loop of `prune_nodes` preserves exactly the elements
with objective below the incumbent, which the list model renders as a
filter. -/
structure BPState where
  nodeQueue : List BPCNode
  bestObjective : Option ℚ
  bestSolution : Option (List (Nat × ℚ))
  nodesPruned : Nat
deriving DecidableEq, Repr

/-- Comparison of a new objective against the incumbent, where `none` stands
for `float('inf')`. -/
def ltBest (z : ℚ) : Option ℚ → Bool
  | none => true
  | some b => z < b

/-- Embedding of `BranchAndPrice.prune_nodes`: if no incumbent exists, do
nothing; otherwise keep exactly the queued nodes whose objective value is
strictly below the incumbent and count the dropped ones. -/
def pruneNodes (s : BPState) : BPState :=
  match s.bestObjective with
  | none => s
  | some b =>
      let remaining := s.nodeQueue.filter (fun n => n.objectiveValue < b)
      { s with
        nodeQueue := remaining
        nodesPruned := s.nodesPruned + (s.nodeQueue.length - remaining.length) }

/-- Embedding of `BranchAndPrice.update_best_solution`: replace the incumbent
only when the new objective is strictly smaller, store a copy of the
solution, and prune the queue against the new incumbent; return whether an
update happened. -/
def updateBestSolution (s : BPState) (z : ℚ) (sol : List (Nat × ℚ)) :
    BPState × Bool :=
  if ltBest z s.bestObjective then
    (pruneNodes { s with bestObjective := some z, bestSolution := some sol }, true)
  else (s, false)

/-- Ordering on incumbents where `none` is positive infinity. -/
def optLE : Option ℚ → Option ℚ → Prop
  | _, none => True
  | none, some _ => False
  | some x, some y => x ≤ y

/-- Claim C9: the incumbent never increases — `update_best_solution` replaces
it only with a strictly smaller value — and immediately after an update the
queue retains exactly the nodes with objective strictly below the new
incumbent (every node with objective at or above it is removed); when no
update happens the state is untouched. -/
theorem C9_incumbent_monotone_and_prune (s : BPState) (z : ℚ)
    (sol : List (Nat × ℚ)) :
    optLE (updateBestSolution s z sol).1.bestObjective s.bestObjective ∧
    ((updateBestSolution s z sol).2 = true ↔ ltBest z s.bestObjective = true) ∧
    ((updateBestSolution s z sol).2 = true →
      (updateBestSolution s z sol).1.bestObjective = some z ∧
      (updateBestSolution s z sol).1.nodeQueue =
        s.nodeQueue.filter (fun n => n.objectiveValue < z) ∧
      ∀ n : BPCNode, n ∈ (updateBestSolution s z sol).1.nodeQueue ↔
        (n ∈ s.nodeQueue ∧ n.objectiveValue < z)) ∧
    ((updateBestSolution s z sol).2 = false → (updateBestSolution s z sol).1 = s) := by
  unfold updateBestSolution
  by_cases hlt : ltBest z s.bestObjective = true
  · simp only [hlt, if_true]
    refine ⟨?_, by simp, ?_, by simp⟩
    · cases hb : s.bestObjective with
      | none => simp [pruneNodes, optLE]
      | some b =>
          rw [hb] at hlt
          simp only [ltBest, decide_eq_true_eq] at hlt
          simp [pruneNodes, optLE, le_of_lt hlt]
    · intro _
      refine ⟨rfl, rfl, ?_⟩
      intro n
      simp [pruneNodes, List.mem_filter]
  · simp only [Bool.not_eq_true] at hlt
    simp [hlt, optLE]
    cases s.bestObjective with
    | none => simp [optLE]
    | some b => simp [optLE]

/-- Claim C9, witness: a queue with nodes at objectives 2 and 5 and no
incumbent; an integer solution of objective 3 updates the incumbent and
prunes exactly the node at 5. -/
theorem C9_witness :
    optLE (updateBestSolution
        { nodeQueue := [{ nodeid := 1, objectiveValue := 2 },
                        { nodeid := 2, objectiveValue := 5 }],
          bestObjective := none, bestSolution := none, nodesPruned := 0 }
        3 [(7, 1)]).1.bestObjective none := by
  exact (C9_incumbent_monotone_and_prune
    { nodeQueue := [{ nodeid := 1, objectiveValue := 2 },
                    { nodeid := 2, objectiveValue := 5 }],
      bestObjective := none, bestSolution := none, nodesPruned := 0 }
    3 [(7, 1)]).1

/-- Input graph, embedded from `model/graph.py` (`Graph`) together with the
per-vertex state of `model/Vertex.py`: edge list, vertex list, each vertex's
adjacency set (`adjacent_vertices`, a set — here an insertion-ordered
duplicate-free list, with set-membership the observable), each vertex's
associated partition id, the partition list (id and member vertex list), and
the id → vertex index `vertex_map` (under the id representation it maps an id
to itself). -/
structure Graph where
  edges : List Edge
  vertices : List VId
  adj : List (VId × List VId)
  partitionOf : List (VId × Nat)
  partitions : List (Nat × List VId)
  vertexMap : List (VId × VId)
deriving DecidableEq, Repr

/-- Adjacency set of a vertex in a graph (empty for a vertex with no
recorded entry). -/
def adjList (adj : List (VId × List VId)) (x : VId) : List VId :=
  (alookup adj x).getD []

/-- Embedding of `Vertex.add_adjacent_vertex` on the adjacency store: insert
`b` into the adjacency set of `a` if absent. -/
def adjInsert (adj : List (VId × List VId)) (a b : VId) : List (VId × List VId) :=
  match alookup adj a with
  | none => adj ++ [(a, [b])]
  | some s => if b ∈ s then adj else aset adj a (s ++ [b])

/-- Side effect of `Edge.__init__` (`model/Edge.py` lines 1-9): constructing
an edge adds each endpoint to the other's adjacency set. -/
def mkEdgeAdj (adj : List (VId × List VId)) (a b : VId) : List (VId × List VId) :=
  adjInsert (adjInsert adj a b) b a

/-- Test of `_get_auxiliary_edges` for an edge with the given unordered
endpoints: `any(e.source == vi and e.target == vj or e.source == vj and
e.target == vi for e in self.auxiliary_edges)`. -/
def edgeExistsUnordered (es : List Edge) (a b : VId) : Bool :=
  es.any (fun e => (e.source = a && e.target = b) || (e.source = b && e.target = a))

/-- Ordered index pairs of a vertex list, in the order of the two nested
loops of `_get_auxiliary_edges` (`for i ...: for j in range(i+1, ...)`). -/
def intraPairs : List VId → List (VId × VId)
  | [] => []
  | x :: xs => xs.map (fun y => (x, y)) ++ intraPairs xs

/-- One iteration of the inner loop of `_get_auxiliary_edges` on the pair
`p`: read both associated partitions (raising if a vertex has none); when they
are equal, construct the edge — whose constructor mutates the two adjacency
sets — and append it to the auxiliary edge list unless an edge with the same
unordered endpoints is already present.  The state is the pair of the
auxiliary edge list and the adjacency store. -/
def auxEdgeStep (pa : List (VId × Nat))
    (st : List Edge × List (VId × List VId)) (p : VId × VId) :
    Option (List Edge × List (VId × List VId)) :=
  match alookup pa p.1, alookup pa p.2 with
  | some q1, some q2 =>
      if q1 = q2 then
        some (if edgeExistsUnordered st.1 p.1 p.2 then st.1
              else st.1 ++ [{ source := p.1, target := p.2 }],
              mkEdgeAdj st.2 p.1 p.2)
      else some st
  | _, _ => none

/-- Fold of `auxEdgeStep` over a pair list. -/
def auxEdgesBuild (pa : List (VId × Nat)) :
    List Edge × List (VId × List VId) → List (VId × VId) →
    Option (List Edge × List (VId × List VId))
  | st, [] => some st
  | st, p :: ps =>
      match auxEdgeStep pa st p with
      | none => none
      | some st1 => auxEdgesBuild pa st1 ps

/-- Embedding of `AuxiliaryGraph._get_auxiliary_edges` as invoked from
`__init__`.  Its first statement reads `self.vertices_map` (a_graph.py:57);
the first argument reflects whether that attribute has been assigned yet
(`none` models the unset attribute, whose read raises `AttributeError`).
When the attribute is set, the two nested loops visit the ordered vertex
pairs and process each with `auxEdgeStep`. -/
def getAuxiliaryEdges (verticesMapAttr : Option (List VId))
    (pa : List (VId × Nat)) (st : List Edge × List (VId × List VId)) :
    Option (List Edge × List (VId × List VId)) :=
  match verticesMapAttr with
  | none => none
  | some vm => auxEdgesBuild pa st (intraPairs vm)

/-- Embedding of `AuxiliaryGraph.__init__` with `auxiliary_edges=None` and
`merged_vertices_map=None`, statement by statement: `self.auxiliary_edges`
starts as a copy of the base edge list (line 36); `_get_auxiliary_edges` is
called at line 37, at which point `self.vertices_map` has not been assigned —
its assignment from the constructor argument happens only at line 46 — so
the call is made with the attribute unset; the constructor raises there,
before any `Edge` is constructed.  The result pairs the base graph as it
stands after the call (possibly mutated through `Edge.__init__`) with the
constructed auxiliary graph, `none` when the constructor raises. -/
def auxiliaryGraphInit (g : Graph) (vmArg : List VId) : Graph × Option AuxGraph :=
  match getAuxiliaryEdges none g.partitionOf (g.edges, g.adj) with
  | none => (g, none)
  | some st =>
      ({ g with adj := st.2 },
       some { verticesMap := vmArg
              weightV := vmArg.map (fun v => (v, 0))
              auxEdges := st.1
              merged := []
              partitionOf := g.partitionOf })

/-- Concrete base graph: vertices 1 and 2 in the same cluster 0, not
adjacent, no edges. -/
def exG0 : Graph :=
  { edges := []
    vertices := [1, 2]
    adj := [(1, []), (2, [])]
    partitionOf := [(1, 0), (2, 0)]
    partitions := [(0, [1, 2])]
    vertexMap := [(1, 1), (2, 2)] }

/-- Concrete base graph: cluster 0 holds vertices 1 and 2, cluster 1 holds
vertex 3; one base edge between 1 and 3. -/
def exG1 : Graph :=
  { edges := [{ source := 1, target := 3 }]
    vertices := [1, 2, 3]
    adj := [(1, [3]), (2, []), (3, [1])]
    partitionOf := [(1, 0), (2, 0), (3, 1)]
    partitions := [(0, [1, 2]), (1, [3])]
    vertexMap := [(1, 1), (2, 2), (3, 3)] }

/-- Claim C7 (code bug).  Every construction of an auxiliary graph with
`auxiliary_edges=None` raises: `__init__` calls `_get_auxiliary_edges`
before assigning `self.vertices_map`, and that method reads the attribute as
its first statement, so the claimed post-construction invariants are never
reached.  In particular the construction attempt on `exG1` — a base graph
with no self-loops and no duplicate edges — produces no auxiliary graph. -/
theorem C7_construction_always_raises :
    (∀ (g : Graph) (vm : List VId), (auxiliaryGraphInit g vm).2 = none) ∧
    auxiliaryGraphInit exG1 [1, 2, 3] = (exG1, none) :=
  ⟨fun _ _ => rfl, rfl⟩

/-- Claim C10: constructing an auxiliary graph leaves the input graph — its
vertex set, edge set, cluster list, partition assignment, vertex-id index,
and every vertex's adjacency set — unchanged.  This holds because the
constructor raises at the `self.vertices_map` read before any statement that
could touch the base graph runs: in particular no `Edge` is ever
constructed, so the `add_adjacent_vertex` side effect of `Edge.__init__`
never fires.  The base graph returned alongside the failed construction is
exactly the input, shown both in general and concretely on `exG0`, whose
same-cluster vertices 1 and 2 keep their empty adjacency sets. -/
theorem C10_input_graph_unchanged :
    (∀ (g : Graph) (vm : List VId), (auxiliaryGraphInit g vm).1 = g) ∧
    (auxiliaryGraphInit exG0 [1, 2]).1.adj = [(1, []), (2, [])] ∧
    adjList (auxiliaryGraphInit exG0 [1, 2]).1.adj 1 = [] :=
  ⟨fun _ _ => rfl, rfl, rfl⟩

end BPC
